import Mathlib

/-!
Verification of the duplicate/similarity grouping Edge Function
(`supabase/functions/ai-detect-duplicates/index.ts`).

Shallow embedding conventions:
* A JS string field that may be `undefined`/absent is modelled as a `String`
  with `""` standing for "absent"; the source only ever tests these fields
  for truthiness (`hash || ...`, `file.content`, `file.mimeType || 'unknown'`),
  and `""` is falsy in JS exactly like `undefined`, so the claims are
  insensitive to the distinction.
* `size` is modelled as a `Nat` (the spec's data model: "integer bytes, ≥0,
  defaults to 0 if absent").
* JS number arithmetic on megabyte sizes is modelled over `ℚ` with exact
  values; `Number.prototype.toFixed(2)` followed by `parseFloat` is modelled
  as exact rounding to hundredths with ties toward the larger value
  (`round2`), which is the ECMA-262 `toFixed` rule applied to the exact
  mathematical value.
* The per-pair OpenRouter similarity call is modelled as an injected oracle
  `FileDesc → FileDesc → Option ℚ`; `none` covers every failure mode of the
  call (fetch exception, non-ok response, unparseable body), all of which the
  source handles identically (no grouping action, loop continues);
  `some s` models a response whose parsed body carried `similarity_score = s`.
* The hard-coded fallback OpenRouter key at line 22 makes `openRouterKey`
  always truthy, so the `openRouterKey && includeSimilar` gate (line 49)
  reduces to `includeSimilar`, and `scan_method` is the constant
  `"ai_enhanced"`.
* `new Date().toISOString()` is modelled by passing the timestamp string as
  an explicit parameter of `scan`.
-/

/-- Input file descriptor as destructured at line 36 of the source
(`{ fileName, filePath, content, size, mimeType, hash }`). -/
structure FileDesc where
  fileName : String
  filePath : String
  content : String
  size : Nat
  mimeType : String
  hash : String
deriving DecidableEq, Repr

/-- `hash || fileName_size_mimeType` (source line 39 and lines 67-68):
the caller-supplied hash when truthy, otherwise the surrogate key. -/
def keyOf (f : FileDesc) : String :=
  if f.hash = "" then f.fileName ++ "_" ++ toString f.size ++ "_" ++ f.mimeType
  else f.hash

/-- The insertion-ordered `fileHashes` map (source lines 32-46), modelled as
an association list from key to the bucket of files in encounter order. -/
def addToBuckets (bs : List (String × List FileDesc)) (k : String) (f : FileDesc) :
    List (String × List FileDesc) :=
  match bs with
  | [] => [(k, [f])]
  | (k2, fs) :: rest =>
    if k2 = k then (k2, fs ++ [f]) :: rest else (k2, fs) :: addToBuckets rest k f

/-- First pass (source lines 34-46): bucket every file under its key,
preserving encounter order of both keys and files. -/
def fileHashes (files : List FileDesc) : List (String × List FileDesc) :=
  files.foldl (fun bs f => addToBuckets bs (keyOf f) f) []

/-- `detection_method` values of emitted groups (source lines 128 and 156). -/
inductive DetectionMethod where
  | exact_hash_match
  | ai_content_similarity
deriving DecidableEq, Repr

/-- A raw (pre-formatting) duplicate group as pushed onto `duplicateGroups`:
its member files, the `similarity_score` fields of its `similarity_details`
entries, and its detection method. -/
structure RawGroup where
  files : List FileDesc
  scores : List ℚ
  method : DetectionMethod
deriving DecidableEq, Repr

/-- An in-progress similarity group (files plus similarity details). -/
structure SimGroup where
  files : List FileDesc
  scores : List ℚ
deriving DecidableEq, Repr

/-- The similarity collaborator: `none` is any per-pair failure
(fetch exception, non-ok status, or unparseable body), `some s` a parsed
response with `similarity_score = s`. -/
def Oracle : Type := FileDesc → FileDesc → Option ℚ

/-- `mimeType?.startsWith('text/')` (source line 52), phrased over character
lists so that it evaluates by kernel reduction. -/
def isTextMime (m : String) : Bool := m.toList.take 5 = "text/".toList

/-- `textFiles` (source line 52): files whose mime type starts with `text/`
or which carry truthy content. -/
def textFiles (files : List FileDesc) : List FileDesc :=
  files.filter (fun f => isTextMime f.mimeType || f.content ≠ "")

/-- All ordered pairs `(l[i], l[j])` with `i < j`, in the source's
lexicographic loop order (lines 55-56). -/
def orderedPairs : List α → List (α × α)
  | [] => []
  | x :: xs => (xs.map fun y => (x, y)) ++ orderedPairs xs

/-- The `processedFiles` key of a pair (source line 60). -/
def pairKey (f1 f2 : FileDesc) : String := f1.fileName ++ "_" ++ f2.fileName

/-- Whether a group already holds a file with one of the two names
(source lines 113-114, the `duplicateGroups.find` predicate). -/
def groupMatches (n1 n2 : String) (g : SimGroup) : Bool :=
  g.files.any (fun f => f.fileName = n1 || f.fileName = n2)

/-- Whether a group already holds a file with the given name. -/
def hasName (g : SimGroup) (n : String) : Bool :=
  g.files.any (fun f => f.fileName = n)

/-- Extend an existing similarity group (source lines 116-123): push `f1`
unless its name is present, then push `f2` unless its name is present in the
already-extended group, then record the similarity detail. -/
def extendGroup (f1 f2 : FileDesc) (s : ℚ) (g : SimGroup) : SimGroup :=
  let g1 := if hasName g f1.fileName then g else { g with files := g.files ++ [f1] }
  let g2 := if hasName g1 f2.fileName then g1 else { g1 with files := g1.files ++ [f2] }
  { g2 with scores := g2.scores ++ [s] }

/-- Merge a matching pair into the group list (source lines 113-130): extend
the first group holding either name, otherwise append a fresh two-file group. -/
def mergePair (f1 f2 : FileDesc) (s : ℚ) : List SimGroup → List SimGroup
  | [] => [⟨[f1, f2], [s]⟩]
  | g :: gs =>
    if groupMatches f1.fileName f2.fileName g then extendGroup f1 f2 s g :: gs
    else g :: mergePair f1 f2 s gs

/-- State threaded through the similarity pass: the `processedFiles` set,
the similarity groups built so far, and the trace of collaborator calls
actually issued. -/
structure SimState where
  processed : List String
  groups : List SimGroup
  calls : List (FileDesc × FileDesc)
deriving DecidableEq, Repr

/-- One iteration of the pair loop (source lines 57-138): skip already
processed name pairs, mark the pair processed, skip same-key pairs, issue the
collaborator call, and on a parsed score at or above the threshold merge the
pair into the group list.  Any failed call (`none`) takes no action. -/
def simStep (th : ℚ) (o : Oracle) (st : SimState) (p : FileDesc × FileDesc) : SimState :=
  let f1 := p.1
  let f2 := p.2
  let pk := pairKey f1 f2
  if pk ∈ st.processed then st
  else
    let st1 : SimState := { st with processed := st.processed ++ [pk] }
    if keyOf f1 = keyOf f2 then st1
    else
      let st2 : SimState := { st1 with calls := st1.calls ++ [(f1, f2)] }
      match o f1 f2 with
      | none => st2
      | some s => if th ≤ s then { st2 with groups := mergePair f1 f2 s st2.groups } else st2

/-- The full similarity pass (source lines 48-144) on the text-file pair list. -/
def simPass (files : List FileDesc) (th : ℚ) (o : Oracle) : SimState :=
  (orderedPairs (textFiles files)).foldl (simStep th o) ⟨[], [], []⟩

/-- The similarity groups produced by the pass. -/
def simGroupsOf (files : List FileDesc) (th : ℚ) (o : Oracle) : List SimGroup :=
  (simPass files th o).groups

/-- Collaborator calls issued by a scan (none when `includeSimilar` is false,
since the hard-coded fallback key makes the line-49 gate `includeSimilar`). -/
def scanCalls (files : List FileDesc) (th : ℚ) (inc : Bool) (o : Oracle) :
    List (FileDesc × FileDesc) :=
  if inc then (simPass files th o).calls else []

/-- Exact-duplicate groups (source lines 146-159): every bucket with at least
two files becomes a group with a single detail of score `1.0`. -/
def exactRaw (files : List FileDesc) : List RawGroup :=
  ((fileHashes files).filter (fun b => 1 < b.2.length)).map
    (fun b => ⟨b.2, [1], DetectionMethod.exact_hash_match⟩)

/-- `duplicateGroups` at line 161: similarity groups were pushed during the
pass, exact groups appended afterwards. -/
def rawGroups (files : List FileDesc) (th : ℚ) (inc : Bool) (o : Oracle) : List RawGroup :=
  (if inc then (simGroupsOf files th o).map
      (fun g => ⟨g.files, g.scores, DetectionMethod.ai_content_similarity⟩)
    else []) ++ exactRaw files

/-- `(file.size || 0) / (1024 * 1024)` (source line 176), exact in `ℚ`. -/
def mb (size : Nat) : ℚ := (size : ℚ) / (1024 * 1024)

/-- `parseFloat(x.toFixed(2))` modelled as exact rounding to hundredths,
ties toward the larger value (the ECMA-262 `toFixed` tie rule). -/
def round2 (q : ℚ) : ℚ := (⌊q * 100 + 1 / 2⌋ : ℚ) / 100

/-- `Math.max(...)` over a list, with `0` as base; all uses in the source are
on nonempty lists of nonnegative rounded sizes, where this agrees. -/
def maxQ (l : List ℚ) : ℚ := l.foldl max 0

/-- A formatted file entry (source lines 177-183). -/
structure FileInfo where
  name : String
  path : String
  size_mb : ℚ
  mime_type : String
  hash : String
deriving DecidableEq, Repr

/-- Source lines 177-183: name, `filePath || ''`, rounded MB size,
`mimeType || 'unknown'`, `hash || 'calculated'`. -/
def formatFile (f : FileDesc) : FileInfo :=
  { name := f.fileName
    path := f.filePath
    size_mb := round2 (mb f.size)
    mime_type := if f.mimeType = "" then "unknown" else f.mimeType
    hash := if f.hash = "" then "calculated" else f.hash }

/-- A formatted duplicate group (source lines 165-202).  `similarity_details`
keeps the `similarity_score` fields of the details. -/
structure GroupInfo where
  files : List FileInfo
  total_size_mb : ℚ
  potential_savings_mb : ℚ
  similarity_score : ℚ
  similarity_details : List ℚ
  detection_method : DetectionMethod
deriving DecidableEq, Repr

/-- Source lines 165-202: format members, accumulate the unrounded MB total,
and for groups of more than one file take the rounded difference to the
largest rounded member size as the potential savings. -/
def formatGroup (g : RawGroup) : GroupInfo :=
  let fis := g.files.map formatFile
  let total := (g.files.map (fun f => mb f.size)).sum
  { files := fis
    total_size_mb := total
    potential_savings_mb :=
      if 1 < fis.length then round2 (total - maxQ (fis.map (fun fi => fi.size_mb))) else 0
    similarity_score := g.scores.headD 0
    similarity_details := g.scores
    detection_method := g.method }

/-- `scan_summary` (source lines 206-214), with the ambient clock made an
explicit `timestamp` argument. -/
structure ScanSummary where
  total_files_scanned : Nat
  duplicate_groups_found : Nat
  total_duplicate_files : Nat
  similarity_threshold : ℚ
  total_potential_savings_mb : ℚ
  scan_method : String
  timestamp : String
deriving DecidableEq, Repr

/-- The result object (source lines 204-216); the constant `success: true`
field is omitted. -/
structure ScanResult where
  scan_summary : ScanSummary
  duplicate_groups : List GroupInfo
deriving DecidableEq, Repr

/-- The whole scan computation (source lines 30-216). -/
def scan (files : List FileDesc) (th : ℚ) (inc : Bool) (o : Oracle) (ts : String) :
    ScanResult :=
  let gs := (rawGroups files th inc o).map formatGroup
  { scan_summary :=
      { total_files_scanned := files.length
        duplicate_groups_found := gs.length
        total_duplicate_files :=
          (gs.map (fun gi => if 1 < gi.files.length then gi.files.length - 1 else 0)).sum
        similarity_threshold := th
        total_potential_savings_mb :=
          round2 ((gs.map (fun gi => gi.potential_savings_mb)).sum)
        scan_method := "ai_enhanced"
        timestamp := ts }
    duplicate_groups := gs }

/-- The request handler's input validation (source lines 17-19): an empty
file list throws `'Files array is required'`, surfaced by the outer catch as
a 500 `DUPLICATE_DETECTION_FAILED` response. -/
def handle (files : List FileDesc) (th : ℚ) (inc : Bool) (o : Oracle) (ts : String) :
    Except String ScanResult :=
  if files.isEmpty then Except.error "Files array is required"
  else Except.ok (scan files th inc o ts)

/-- Observable I/O actions of one handler invocation beyond receiving the
request and sending the response. -/
inductive Effect where
  | similarityCall (a b : FileDesc)
  | userLookup
  | storeResult
deriving DecidableEq, Repr

/-- Whether an effect is a per-pair collaborator similarity call. -/
def isSimilarityCall : Effect → Bool
  | Effect.similarityCall _ _ => true
  | _ => false

/-- The handler's I/O trace (source lines 88-103, 218-269): the per-pair
collaborator calls, then a user lookup whenever an authorization header is
present (line 221), then a store of the result whenever that lookup
succeeded and yielded a user id (line 240).  `userFound` models the lookup
responding ok with an id. -/
def handleEffects (files : List FileDesc) (th : ℚ) (inc : Bool) (o : Oracle)
    (authHeader : Option String) (userFound : Bool) : List Effect :=
  if files.isEmpty then []
  else
    ((scanCalls files th inc o).map (fun p => Effect.similarityCall p.1 p.2)) ++
      (if authHeader.isSome then [Effect.userLookup] else []) ++
      (if authHeader.isSome && userFound then [Effect.storeResult] else [])

/-- The scan result with the volatile `timestamp` field blanked, for stating
determinism of everything else. -/
def stripTimestamp (r : ScanResult) : ScanResult :=
  { r with scan_summary := { r.scan_summary with timestamp := "" } }

/-- Whether a handler outcome is a success response. -/
def isOkResult : Except String ScanResult → Bool
  | Except.ok _ => true
  | Except.error _ => false

/-- The decidable "has key `k`" test on files. -/
def dKey (k : String) : FileDesc → Bool := fun f => decide (keyOf f = k)

/-- Bucket lookup in the association-list model of the `fileHashes` map. -/
def bucketFor : List (String × List FileDesc) → String → List FileDesc
  | [], _ => []
  | b :: rest, k => if b.1 = k then b.2 else bucketFor rest k

/-- The member names of a similarity group. -/
def namesOf (g : SimGroup) : List String := g.files.map (fun f => f.fileName)

/-- Name discipline of a similarity group: only its two creation members may
share a fileName; every later member's name is distinct from all others. -/
def SimInv (g : SimGroup) : Prop :=
  ∃ n1 n2 ns, namesOf g = n1 :: n2 :: ns ∧ (n2 :: ns).Nodup ∧ n1 ∉ ns

/-- Replace every per-pair failure of an oracle by the fixed score `s`. -/
def fallbackOracle (o : Oracle) (s : ℚ) : Oracle := fun a b => some ((o a b).getD s)

/-- The always-failing collaborator. -/
def noOracle : Oracle := fun _ _ => none

/-- A collaborator that scores every pair `0.95`. -/
def oracleHi : Oracle := fun _ _ => some (19 / 20)

/-- A collaborator that scores the pair of names `a`, `c` at `0.95` and fails
on every other pair. -/
def oracleAC : Oracle := fun f g =>
  if f.fileName = "a" ∧ g.fileName = "c" then some (19 / 20) else none

/-- Concrete input: a text file that has an exact twin (by hash `H`) and is
also similar (per `oracleAC`) to `exC`. -/
def exA : FileDesc := ⟨"a", "", "x", 1, "text/plain", "H"⟩

/-- Concrete input: exact twin of `exA` (same caller hash `H`). -/
def exB : FileDesc := ⟨"b", "", "", 1, "text/plain", "H"⟩

/-- Concrete input: file similar to `exA` per `oracleAC`, hash `K`. -/
def exC : FileDesc := ⟨"c", "", "y", 1, "text/plain", "K"⟩

/-- Concrete input: a one-byte file with caller hash `h`. -/
def exS1 : FileDesc := ⟨"a", "", "", 1, "", "h"⟩

/-- Concrete input: a second one-byte file with the same caller hash `h`. -/
def exS2 : FileDesc := ⟨"b", "", "", 1, "", "h"⟩

/-- Concrete input: a text file named `a` (no hash, size 1). -/
def exN1 : FileDesc := ⟨"a", "", "x", 1, "text/plain", ""⟩

/-- Concrete input: a second text file also named `a` (no hash, size 2). -/
def exN2 : FileDesc := ⟨"a", "", "y", 2, "text/plain", ""⟩

/-- Concrete input: a zero-byte file with caller hash `h`. -/
def exZ1 : FileDesc := ⟨"a", "", "", 0, "", "h"⟩

/-- Concrete input: a second zero-byte file with the same caller hash `h`. -/
def exZ2 : FileDesc := ⟨"b", "", "", 0, "", "h"⟩

/-- The single group returned by scanning the two zero-byte twins `exZ1`,
`exZ2` (with or without the similarity pass, which finds no text files). -/
def twinGroupInfo : GroupInfo :=
  ⟨[⟨"a", "", 0, "unknown", "h"⟩, ⟨"b", "", 0, "unknown", "h"⟩],
    0, 0, 1, [1], DetectionMethod.exact_hash_match⟩

/-- The similarity group created from the two same-named files. -/
def c10g : SimGroup := ⟨[exN1, exN2], [19 / 20]⟩

/-! ### Properties of the exact-hash bucket map -/

lemma addToBuckets_bucketFor_same (bs : List (String × List FileDesc)) (k : String)
    (f : FileDesc) : bucketFor (addToBuckets bs k f) k = bucketFor bs k ++ [f] := by
  induction bs with
  | nil => simp [addToBuckets, bucketFor]
  | cons b rest ih =>
    obtain ⟨k2, fs⟩ := b
    by_cases h : k2 = k
    · subst h
      simp [addToBuckets, bucketFor]
    · simp [addToBuckets, bucketFor, h, ih]

lemma addToBuckets_bucketFor_diff (bs : List (String × List FileDesc)) (k k2 : String)
    (f : FileDesc) (h : k2 ≠ k) : bucketFor (addToBuckets bs k f) k2 = bucketFor bs k2 := by
  induction bs with
  | nil => simp [addToBuckets, bucketFor, Ne.symm h]
  | cons b rest ih =>
    obtain ⟨kb, fs⟩ := b
    by_cases hb : kb = k
    · subst hb
      simp [addToBuckets, bucketFor, Ne.symm h]
    · by_cases hk2 : kb = k2
      · subst hk2
        simp [addToBuckets, bucketFor, hb]
      · simp [addToBuckets, bucketFor, hb, hk2, ih]

lemma foldl_bucketFor (fs : List FileDesc) :
    ∀ (bs : List (String × List FileDesc)) (k : String),
      bucketFor (fs.foldl (fun bs f => addToBuckets bs (keyOf f) f) bs) k
        = bucketFor bs k ++ fs.filter (dKey k) := by
  induction fs with
  | nil => intro bs k; simp
  | cons f fs ih =>
    intro bs k
    rw [List.foldl_cons, ih]
    by_cases h : keyOf f = k
    · subst h
      rw [addToBuckets_bucketFor_same]
      simp [List.filter_cons, dKey]
    · rw [addToBuckets_bucketFor_diff bs (keyOf f) k f (fun hk => h hk.symm)]
      simp [List.filter_cons, dKey, h]

lemma fileHashes_bucketFor (files : List FileDesc) (k : String) :
    bucketFor (fileHashes files) k = files.filter (dKey k) := by
  have h := foldl_bucketFor files [] k
  simpa [fileHashes, bucketFor] using h

/-- Keys of distinct buckets are distinct. -/
def KeysDistinct (bs : List (String × List FileDesc)) : Prop :=
  bs.Pairwise (fun a b => a.1 ≠ b.1)

lemma addToBuckets_key_mem (bs : List (String × List FileDesc)) (k : String) (f : FileDesc) :
    ∀ b ∈ addToBuckets bs k f, b.1 = k ∨ ∃ b2 ∈ bs, b.1 = b2.1 := by
  induction bs with
  | nil => simp [addToBuckets]
  | cons c rest ih =>
    obtain ⟨kc, fs⟩ := c
    by_cases h : kc = k
    · subst h
      intro b hb
      rw [show addToBuckets ((kc, fs) :: rest) kc f = (kc, fs ++ [f]) :: rest by
        simp [addToBuckets]] at hb
      rcases List.mem_cons.1 hb with rfl | hb2
      · exact Or.inl rfl
      · exact Or.inr ⟨b, List.mem_cons_of_mem _ hb2, rfl⟩
    · intro b hb
      simp only [addToBuckets, if_neg h] at hb
      rcases List.mem_cons.1 hb with rfl | hb2
      · exact Or.inr ⟨(kc, fs), List.mem_cons_self _ _, rfl⟩
      · rcases ih b hb2 with hk | ⟨b2, hb2m, hbk⟩
        · exact Or.inl hk
        · exact Or.inr ⟨b2, List.mem_cons_of_mem _ hb2m, hbk⟩

lemma addToBuckets_keysDistinct (bs : List (String × List FileDesc)) (k : String)
    (f : FileDesc) (h : KeysDistinct bs) : KeysDistinct (addToBuckets bs k f) := by
  induction bs with
  | nil => simp [addToBuckets, KeysDistinct]
  | cons c rest ih =>
    obtain ⟨kc, fs⟩ := c
    rw [KeysDistinct, List.pairwise_cons] at h
    obtain ⟨hc, hrest⟩ := h
    by_cases hk : kc = k
    · subst hk
      simp only [addToBuckets, if_pos rfl]
      exact List.Pairwise.cons hc hrest
    · simp only [addToBuckets, if_neg hk]
      refine List.Pairwise.cons ?_ (ih hrest)
      intro b hb
      rcases addToBuckets_key_mem rest k f b hb with rfl | ⟨b2, hb2, hbk⟩
      · exact hk
      · rw [hbk]
        exact hc b2 hb2

lemma fileHashes_keysDistinct (files : List FileDesc) : KeysDistinct (fileHashes files) := by
  have H : ∀ (fs : List FileDesc) (bs : List (String × List FileDesc)), KeysDistinct bs →
      KeysDistinct (fs.foldl (fun bs f => addToBuckets bs (keyOf f) f) bs) := by
    intro fs
    induction fs with
    | nil => intro bs h; exact h
    | cons f fs ih =>
      intro bs h
      rw [List.foldl_cons]
      exact ih _ (addToBuckets_keysDistinct bs (keyOf f) f h)
  exact H files [] (by simp [KeysDistinct])

lemma bucketFor_of_mem (bs : List (String × List FileDesc)) (h : KeysDistinct bs)
    (b : String × List FileDesc) (hb : b ∈ bs) : bucketFor bs b.1 = b.2 := by
  induction bs with
  | nil => cases hb
  | cons c rest ih =>
    rw [KeysDistinct, List.pairwise_cons] at h
    rcases List.mem_cons.1 hb with rfl | hb2
    · simp [bucketFor]
    · have hne : c.1 ≠ b.1 := h.1 b hb2
      simp only [bucketFor, if_neg hne]
      exact ih h.2 hb2

/-- Every bucket of the first pass holds exactly the input files with its
key, in encounter order. -/
lemma fileHashes_sound (files : List FileDesc) :
    ∀ b ∈ fileHashes files, b.2 = files.filter (dKey b.1) := by
  intro b hb
  rw [← fileHashes_bucketFor files b.1,
    bucketFor_of_mem (fileHashes files) (fileHashes_keysDistinct files) b hb]

lemma mem_of_bucketFor_ne (bs : List (String × List FileDesc)) (k : String)
    (h : bucketFor bs k ≠ []) : (k, bucketFor bs k) ∈ bs := by
  induction bs with
  | nil => exact absurd rfl h
  | cons c rest ih =>
    by_cases hc : c.1 = k
    · obtain ⟨kc, fs⟩ := c
      subst hc
      simp [bucketFor]
    · simp only [bucketFor, if_neg hc] at h ⊢
      exact List.mem_cons_of_mem _ (ih h)

/-- When some input file has key `k`, the bucket `(k, files.filter (dKey k))`
is present in the first-pass map. -/
lemma fileHashes_complete (files : List FileDesc) (k : String)
    (h : files.filter (dKey k) ≠ []) : (k, files.filter (dKey k)) ∈ fileHashes files := by
  have hb := fileHashes_bucketFor files k
  rw [← hb]
  exact mem_of_bucketFor_ne (fileHashes files) k (by rw [hb]; exact h)

/-- A list pairwise-incompatible for a predicate holds at most one element
satisfying it. -/
lemma countP_le_one_of_pairwise {α : Type} (p : α → Bool) :
    ∀ {l : List α}, l.Pairwise (fun a b => ¬(p a = true ∧ p b = true)) → l.countP p ≤ 1 := by
  intro l h
  induction l with
  | nil => simp
  | cons a l ih =>
    rw [List.countP_cons]
    rw [List.pairwise_cons] at h
    by_cases hp : p a = true
    · have hz : l.countP p = 0 := by
        rw [List.countP_eq_zero]
        intro b hb hpb
        exact h.1 b hb ⟨hp, hpb⟩
      simp [hz, hp]
    · simp only [hp, if_false]
      simpa using ih h.2

/-! ### Invariants of the similarity pass -/

lemma not_hasName_iff (g : SimGroup) (n : String) :
    ¬hasName g n = true ↔ n ∉ namesOf g := by
  unfold hasName namesOf
  rw [List.any_eq_true]
  simp only [decide_eq_true_eq, List.mem_map]

lemma namesOf_scores (g : SimGroup) (s2 : List ℚ) :
    namesOf { g with scores := s2 } = namesOf g := rfl

lemma SimInv_two_le (g : SimGroup) (h : SimInv g) : 2 ≤ g.files.length := by
  obtain ⟨n1, n2, ns, hnames, _, _⟩ := h
  have : (namesOf g).length = g.files.length := by simp [namesOf]
  rw [← this, hnames]
  simp

lemma SimInv_push (g : SimGroup) (f : FileDesc) (h : SimInv g)
    (hn : f.fileName ∉ namesOf g) : SimInv { g with files := g.files ++ [f] } := by
  obtain ⟨n1, n2, ns, hnames, hnodup, hn1⟩ := h
  rw [hnames] at hn
  refine ⟨n1, n2, ns ++ [f.fileName], ?_, ?_, ?_⟩
  · show (g.files ++ [f]).map (fun x => x.fileName) = _
    rw [List.map_append]
    show namesOf g ++ [f.fileName] = _
    rw [hnames]
    simp
  · rw [List.nodup_cons] at hnodup ⊢
    refine ⟨?_, ?_⟩
    · intro hmem
      rcases List.mem_append.1 hmem with h1 | h2
      · exact hnodup.1 h1
      · rw [List.mem_singleton] at h2
        exact hn (h2 ▸ List.mem_cons_of_mem _ (List.mem_cons_self _ _))
    · rw [List.nodup_append]
      exact ⟨hnodup.2, List.nodup_singleton _, by
        intro a ha hb
        rw [List.mem_singleton] at hb
        subst hb
        exact hn (List.mem_cons_of_mem _ (List.mem_cons_of_mem _ ha))⟩
  · intro hmem
    rcases List.mem_append.1 hmem with h1 | h2
    · exact hn1 h1
    · rw [List.mem_singleton] at h2
      exact hn (h2 ▸ List.mem_cons_self _ _)

lemma SimInv_extendGroup (f1 f2 : FileDesc) (s : ℚ) (g : SimGroup) (h : SimInv g) :
    SimInv (extendGroup f1 f2 s g) := by
  simp only [extendGroup]
  by_cases h1 : hasName g f1.fileName = true
  · rw [if_pos h1]
    by_cases h2 : hasName g f2.fileName = true
    · rw [if_pos h2]
      exact h
    · rw [if_neg h2]
      exact SimInv_push g f2 h ((not_hasName_iff g f2.fileName).1 h2)
  · rw [if_neg h1]
    have hg1 : SimInv { g with files := g.files ++ [f1] } :=
      SimInv_push g f1 h ((not_hasName_iff g f1.fileName).1 h1)
    by_cases h2 : hasName { g with files := g.files ++ [f1] } f2.fileName = true
    · rw [if_pos h2]
      exact hg1
    · rw [if_neg h2]
      exact SimInv_push _ f2 hg1 ((not_hasName_iff _ f2.fileName).1 h2)

lemma mergePair_inv (f1 f2 : FileDesc) (s : ℚ) :
    ∀ (gs : List SimGroup), (∀ g ∈ gs, SimInv g) → ∀ g ∈ mergePair f1 f2 s gs, SimInv g := by
  intro gs
  induction gs with
  | nil =>
    intro _ g hg
    simp only [mergePair, List.mem_singleton] at hg
    subst hg
    exact ⟨f1.fileName, f2.fileName, [], rfl, by simp, by simp⟩
  | cons g0 gs ih =>
    intro hall g hg
    by_cases hm : groupMatches f1.fileName f2.fileName g0 = true
    · rw [show mergePair f1 f2 s (g0 :: gs) = extendGroup f1 f2 s g0 :: gs by
        simp only [mergePair, if_pos hm]] at hg
      rcases List.mem_cons.1 hg with rfl | hgs
      · exact SimInv_extendGroup f1 f2 s g0 (hall g0 (List.mem_cons_self _ _))
      · exact hall g (List.mem_cons_of_mem _ hgs)
    · rw [show mergePair f1 f2 s (g0 :: gs) = g0 :: mergePair f1 f2 s gs by
        simp only [mergePair, if_neg hm]] at hg
      rcases List.mem_cons.1 hg with rfl | hgs
      · exact hall g (List.mem_cons_self _ _)
      · exact ih (fun x hx => hall x (List.mem_cons_of_mem _ hx)) g hgs

/-- Invariant carried through the pair loop: all groups satisfy the name
discipline, the issued calls have pairwise-distinct `processedFiles` keys,
and every issued call's key is recorded in `processedFiles`. -/
def StInv (st : SimState) : Prop :=
  (∀ g ∈ st.groups, SimInv g) ∧
  ((st.calls.map fun p => pairKey p.1 p.2).Nodup) ∧
  (∀ p ∈ st.calls, pairKey p.1 p.2 ∈ st.processed)

lemma simStep_StInv (th : ℚ) (o : Oracle) (st : SimState) (p : FileDesc × FileDesc)
    (h : StInv st) : StInv (simStep th o st p) := by
  obtain ⟨hg, hnd, hsub⟩ := h
  unfold simStep
  by_cases hpk : pairKey p.1 p.2 ∈ st.processed
  · simp only [if_pos hpk]
    exact ⟨hg, hnd, hsub⟩
  · simp only [if_neg hpk]
    have hsub1 : ∀ q ∈ st.calls, pairKey q.1 q.2 ∈ st.processed ++ [pairKey p.1 p.2] :=
      fun q hq => List.mem_append.2 (Or.inl (hsub q hq))
    by_cases hkey : keyOf p.1 = keyOf p.2
    · simp only [if_pos hkey]
      exact ⟨hg, hnd, hsub1⟩
    · simp only [if_neg hkey]
      have hnd2 : ((st.calls ++ [p]).map fun q => pairKey q.1 q.2).Nodup := by
        rw [List.map_append, List.nodup_append]
        refine ⟨hnd, by simp, ?_⟩
        intro a ha hb
        simp only [List.map_cons, List.map_nil, List.mem_singleton] at hb
        subst hb
        rw [List.mem_map] at ha
        obtain ⟨q, hq, hqk⟩ := ha
        exact hpk (hqk ▸ hsub q hq)
      have hsub2 : ∀ q ∈ st.calls ++ [p],
          pairKey q.1 q.2 ∈ st.processed ++ [pairKey p.1 p.2] := by
        intro q hq
        rcases List.mem_append.1 hq with h1 | h2
        · exact hsub1 q h1
        · rw [List.mem_singleton] at h2
          subst h2
          exact List.mem_append.2 (Or.inr (List.mem_singleton.2 rfl))
      cases ho : o p.1 p.2 with
      | none => simp only [ho]; exact ⟨hg, hnd2, hsub2⟩
      | some s =>
        simp only [ho]
        by_cases hth : th ≤ s
        · simp only [if_pos hth]
          exact ⟨mergePair_inv p.1 p.2 s st.groups hg, hnd2, hsub2⟩
        · simp only [if_neg hth]
          exact ⟨hg, hnd2, hsub2⟩

lemma foldl_StInv (th : ℚ) (o : Oracle) (l : List (FileDesc × FileDesc)) :
    ∀ st, StInv st → StInv (l.foldl (simStep th o) st) := by
  induction l with
  | nil => intro st h; exact h
  | cons p l ih =>
    intro st h
    rw [List.foldl_cons]
    exact ih _ (simStep_StInv th o st p h)

lemma simPass_StInv (files : List FileDesc) (th : ℚ) (o : Oracle) :
    StInv (simPass files th o) :=
  foldl_StInv th o _ ⟨[], [], []⟩ ⟨by simp, by simp, by simp⟩

lemma simGroupsOf_inv (files : List FileDesc) (th : ℚ) (o : Oracle) :
    ∀ g ∈ simGroupsOf files th o, SimInv g :=
  (simPass_StInv files th o).1

lemma scanCalls_keys_nodup (files : List FileDesc) (th : ℚ) (inc : Bool) (o : Oracle) :
    ((scanCalls files th inc o).map fun p => pairKey p.1 p.2).Nodup := by
  cases inc with
  | false => simp [scanCalls]
  | true =>
    simp only [scanCalls, if_true]
    exact (simPass_StInv files th o).2.1

/-! ### Collaborator failures are equivalent to below-threshold scores -/

lemma simStep_fallback (th : ℚ) (o : Oracle) (s : ℚ) (hs : s < th) (st : SimState)
    (p : FileDesc × FileDesc) : simStep th (fallbackOracle o s) st p = simStep th o st p := by
  unfold simStep fallbackOracle
  by_cases hpk : pairKey p.1 p.2 ∈ st.processed
  · simp [hpk]
  · simp only [if_neg hpk]
    by_cases hkey : keyOf p.1 = keyOf p.2
    · simp [hkey]
    · simp only [if_neg hkey]
      cases ho : o p.1 p.2 with
      | none => simp [ho, if_neg (not_le.mpr hs)]
      | some r => simp [ho]

lemma foldl_fallback (th : ℚ) (o : Oracle) (s : ℚ) (hs : s < th)
    (l : List (FileDesc × FileDesc)) : ∀ st,
    l.foldl (simStep th (fallbackOracle o s)) st = l.foldl (simStep th o) st := by
  induction l with
  | nil => intro st; rfl
  | cons p l ih =>
    intro st
    rw [List.foldl_cons, List.foldl_cons, simStep_fallback th o s hs, ih]

lemma simPass_fallback (files : List FileDesc) (th : ℚ) (o : Oracle) (s : ℚ) (hs : s < th) :
    simPass files th (fallbackOracle o s) = simPass files th o :=
  foldl_fallback th o s hs _ _

lemma scan_fallback (files : List FileDesc) (th : ℚ) (inc : Bool) (o : Oracle) (s : ℚ)
    (hs : s < th) (ts : String) :
    scan files th inc (fallbackOracle o s) ts = scan files th inc o ts := by
  unfold scan rawGroups simGroupsOf
  rw [simPass_fallback files th o s hs]

lemma scanCalls_fallback (files : List FileDesc) (th : ℚ) (inc : Bool) (o : Oracle) (s : ℚ)
    (hs : s < th) :
    scanCalls files th inc (fallbackOracle o s) = scanCalls files th inc o := by
  unfold scanCalls
  rw [simPass_fallback files th o s hs]

/-! ### Arithmetic facts about the rounded megabyte quantities -/

lemma round2_le (q : ℚ) : round2 q ≤ q + 1 / 200 := by
  unfold round2
  have h := Int.floor_le (q * 100 + 1 / 2)
  have h100 : (0 : ℚ) < 100 := by norm_num
  rw [div_le_iff₀ h100]
  calc (⌊q * 100 + 1 / 2⌋ : ℚ) ≤ q * 100 + 1 / 2 := h
    _ = (q + 1 / 200) * 100 := by ring

lemma round2_nonneg (q : ℚ) (h : -(1 / 200) ≤ q) : 0 ≤ round2 q := by
  unfold round2
  have hz : (0 : ℤ) ≤ ⌊q * 100 + 1 / 2⌋ := by
    rw [Int.le_floor]
    push_cast
    linarith
  have : (0 : ℚ) ≤ (⌊q * 100 + 1 / 2⌋ : ℚ) := by exact_mod_cast hz
  positivity

lemma foldl_max_le (l : List ℚ) (c : ℚ) : ∀ a, a ≤ c → (∀ x ∈ l, x ≤ c) → l.foldl max a ≤ c := by
  induction l with
  | nil => intro a ha _; exact ha
  | cons x l ih =>
    intro a ha hall
    rw [List.foldl_cons]
    exact ih (max a x) (max_le ha (hall x (List.mem_cons_self _ _)))
      (fun y hy => hall y (List.mem_cons_of_mem _ hy))

lemma maxQ_le (l : List ℚ) (c : ℚ) (hc : 0 ≤ c) (h : ∀ x ∈ l, x ≤ c) : maxQ l ≤ c :=
  foldl_max_le l c 0 hc h

lemma mb_nonneg (n : Nat) : 0 ≤ mb n := by
  unfold mb
  positivity

lemma formatGroup_sizes (g : RawGroup) :
    (g.files.map formatFile).map (fun fi => fi.size_mb)
      = g.files.map (fun f => round2 (mb f.size)) := by
  rw [List.map_map]
  rfl

lemma formatGroup_savings_nonneg (g : RawGroup) :
    0 ≤ (formatGroup g).potential_savings_mb := by
  show 0 ≤ if 1 < (g.files.map formatFile).length then
    round2 ((g.files.map (fun f => mb f.size)).sum
      - maxQ ((g.files.map formatFile).map (fun fi => fi.size_mb))) else 0
  by_cases hlen : 1 < (g.files.map formatFile).length
  · rw [if_pos hlen]
    have htotal : 0 ≤ (g.files.map (fun f => mb f.size)).sum :=
      List.sum_nonneg (by
        intro x hx
        obtain ⟨f, _, rfl⟩ := List.mem_map.1 hx
        exact mb_nonneg f.size)
    apply round2_nonneg
    have hmax : maxQ ((g.files.map formatFile).map (fun fi => fi.size_mb))
        ≤ (g.files.map (fun f => mb f.size)).sum + 1 / 200 := by
      apply maxQ_le _ _ (by linarith)
      rw [formatGroup_sizes]
      intro x hx
      obtain ⟨f, hf, rfl⟩ := List.mem_map.1 hx
      have h1 : mb f.size ≤ (g.files.map (fun f => mb f.size)).sum := by
        apply List.single_le_sum (by
          intro y hy
          obtain ⟨f2, _, rfl⟩ := List.mem_map.1 hy
          exact mb_nonneg f2.size)
        exact List.mem_map.2 ⟨f, hf, rfl⟩
      calc round2 (mb f.size) ≤ mb f.size + 1 / 200 := round2_le _
        _ ≤ (g.files.map (fun f => mb f.size)).sum + 1 / 200 := by linarith
    linarith
  · rw [if_neg hlen]

lemma formatGroup_savings_eq (g : RawGroup) (h : 1 < (formatGroup g).files.length) :
    (formatGroup g).potential_savings_mb =
      round2 ((formatGroup g).total_size_mb
        - maxQ ((formatGroup g).files.map (fun fi => fi.size_mb))) := by
  show (if 1 < (g.files.map formatFile).length then
      round2 ((g.files.map (fun f => mb f.size)).sum
        - maxQ ((g.files.map formatFile).map (fun fi => fi.size_mb))) else 0) = _
  rw [if_pos (show 1 < (g.files.map formatFile).length from h)]
  rfl

/-! ### Structure of the emitted raw groups -/

lemma mem_exactRaw (files : List FileDesc) (g : RawGroup) (hg : g ∈ exactRaw files) :
    g.method = DetectionMethod.exact_hash_match ∧ g.scores = [1] ∧
    ∃ b ∈ fileHashes files, 1 < b.2.length ∧ g.files = b.2 := by
  unfold exactRaw at hg
  obtain ⟨b, hb, rfl⟩ := List.mem_map.1 hg
  rw [List.mem_filter] at hb
  exact ⟨rfl, rfl, b, hb.1, by simpa using hb.2, rfl⟩

lemma mem_rawGroups (files : List FileDesc) (th : ℚ) (inc : Bool) (o : Oracle)
    (g : RawGroup) (hg : g ∈ rawGroups files th inc o) :
    (∃ sg ∈ simGroupsOf files th o, inc = true ∧
      g = ⟨sg.files, sg.scores, DetectionMethod.ai_content_similarity⟩) ∨
    g ∈ exactRaw files := by
  unfold rawGroups at hg
  rcases List.mem_append.1 hg with h1 | h2
  · cases inc with
    | false => simp at h1
    | true =>
      obtain ⟨sg, hsg, rfl⟩ := List.mem_map.1 (by simpa using h1)
      exact Or.inl ⟨sg, hsg, rfl, rfl⟩
  · exact Or.inr h2

lemma rawGroups_two_le (files : List FileDesc) (th : ℚ) (inc : Bool) (o : Oracle) :
    ∀ g ∈ rawGroups files th inc o, 2 ≤ g.files.length := by
  intro g hg
  rcases mem_rawGroups files th inc o g hg with ⟨sg, hsg, _, rfl⟩ | hex
  · exact SimInv_two_le sg (simGroupsOf_inv files th o sg hsg)
  · obtain ⟨_, _, b, _, hlen, hfiles⟩ := mem_exactRaw files g hex
    rw [hfiles]
    omega

lemma rawGroups_exact_scores (files : List FileDesc) (th : ℚ) (inc : Bool) (o : Oracle) :
    ∀ g ∈ rawGroups files th inc o,
      g.method = DetectionMethod.exact_hash_match → g.scores = [1] := by
  intro g hg hm
  rcases mem_rawGroups files th inc o g hg with ⟨sg, _, _, rfl⟩ | hex
  · exact absurd hm (by simp)
  · exact (mem_exactRaw files g hex).2.1

/-- The exact-group part of the output holds at most one group containing any
given file (a file has one key, and keys are distinct across buckets). -/
lemma exactRaw_countP_mem_le_one (files : List FileDesc) (f : FileDesc) :
    (exactRaw files).countP
      (fun g => decide (g.method = DetectionMethod.exact_hash_match ∧ f ∈ g.files)) ≤ 1 := by
  unfold exactRaw
  rw [List.countP_map, List.countP_filter]
  apply countP_le_one_of_pairwise
  refine List.Pairwise.imp_of_mem ?_ (fileHashes_keysDistinct files)
  intro a b ha hb hne ⟨hpa, hpb⟩
  have hkey : ∀ c ∈ fileHashes files, f ∈ c.2 → keyOf f = c.1 := by
    intro c hc hfc
    have hs := fileHashes_sound files c hc
    rw [hs, List.mem_filter] at hfc
    have := hfc.2
    unfold dKey at this
    exact of_decide_eq_true this
  simp only [Function.comp, Bool.and_eq_true, decide_eq_true_eq] at hpa hpb
  exact hne ((hkey a ha hpa.1.2).symm.trans (hkey b hb hpb.1.2))

/-- The exact-group part holds exactly one group for each key shared by at
least two files, and that group's members are the key's files in encounter
order. -/
lemma exactRaw_countP_key (files : List FileDesc) (k : String)
    (h : 2 ≤ (files.filter (dKey k)).length) :
    (exactRaw files).countP
      (fun g => decide (g.method = DetectionMethod.exact_hash_match ∧
        g.files = files.filter (dKey k))) = 1 := by
  unfold exactRaw
  rw [List.countP_map, List.countP_filter]
  apply le_antisymm
  · apply countP_le_one_of_pairwise
    refine List.Pairwise.imp_of_mem ?_ (fileHashes_keysDistinct files)
    intro a b ha hb hne ⟨hpa, hpb⟩
    simp only [Function.comp, Bool.and_eq_true, decide_eq_true_eq] at hpa hpb
    have hL : files.filter (dKey k) ≠ [] := by
      intro he
      rw [he] at h
      simp at h
    obtain ⟨f, hf⟩ := List.exists_mem_of_ne_nil _ hL
    have hfk : keyOf f = k := by
      have := (List.mem_filter.1 hf).2
      unfold dKey at this
      exact of_decide_eq_true this
    have hkey : ∀ c ∈ fileHashes files, c.2 = files.filter (dKey k) → c.1 = k := by
      intro c hc hcL
      have hs := fileHashes_sound files c hc
      have hfc : f ∈ c.2 := hcL ▸ hf
      rw [hs, List.mem_filter] at hfc
      have := hfc.2
      unfold dKey at this
      exact (of_decide_eq_true this).symm.trans hfk
    exact hne ((hkey a ha hpa.1.2).trans (hkey b hb hpb.1.2).symm)
  · rw [Nat.succ_le_iff, List.countP_pos_iff]
    refine ⟨(k, files.filter (dKey k)), fileHashes_complete files k ?_, ?_⟩
    · intro he
      rw [he] at h
      simp at h
    · simp only [Function.comp, Bool.and_eq_true, decide_eq_true_eq]
      exact ⟨⟨trivial, trivial⟩, by omega⟩

/-! ### Bridges from the raw groups to the formatted scan output -/

lemma scan_groups (files : List FileDesc) (th : ℚ) (inc : Bool) (o : Oracle) (ts : String) :
    (scan files th inc o ts).duplicate_groups = (rawGroups files th inc o).map formatGroup :=
  rfl

lemma formatGroup_method (g : RawGroup) :
    (formatGroup g).detection_method = g.method := rfl

lemma formatGroup_len (g : RawGroup) : (formatGroup g).files.length = g.files.length := by
  show (g.files.map formatFile).length = _
  rw [List.length_map]

lemma rawGroups_countP_split (files : List FileDesc) (th : ℚ) (inc : Bool) (o : Oracle)
    (p : RawGroup → Bool)
    (hp : ∀ g : RawGroup, g.method = DetectionMethod.ai_content_similarity → p g = false) :
    (rawGroups files th inc o).countP p = (exactRaw files).countP p := by
  unfold rawGroups
  rw [List.countP_append]
  have h0 : (List.countP p (if inc then (simGroupsOf files th o).map
      (fun g => (⟨g.files, g.scores, DetectionMethod.ai_content_similarity⟩ : RawGroup))
      else [])) = 0 := by
    cases inc with
    | false => simp
    | true =>
      simp only [if_true]
      rw [List.countP_eq_zero]
      intro g hg
      obtain ⟨sg, _, rfl⟩ := List.mem_map.1 hg
      have hv := hp ⟨sg.files, sg.scores, DetectionMethod.ai_content_similarity⟩ rfl
      simp [hv]
  rw [h0]
  exact Nat.zero_add _

/-! ### The claims -/

/-- Claim C1, counterexample: with three files where `exA` and `exB` share the
caller hash `H` while the collaborator scores the pair `(exA, exC)` at 0.95,
the file `exA` appears in two returned groups at once — the
`AiContentSimilarity` group `[exA, exC]` and the `ExactHashMatch` group
`[exA, exB]` — refuting "each input file appears in at most one group". -/
theorem C1_file_in_two_groups :
    ((scan [exA, exB, exC] (9 / 10) true oracleAC "t").duplicate_groups.countP
      (fun gi => decide (formatFile exA ∈ gi.files))) = 2 := by
  with_unfolding_all decide

/-- Claim C1, amended: every input file appears in at most one
`ExactHashMatch` group of the output (it may additionally appear in
`AiContentSimilarity` groups, as the counterexample shows). -/
theorem C1_at_most_one_exact_group (files : List FileDesc) (th : ℚ) (inc : Bool)
    (o : Oracle) (f : FileDesc) :
    (rawGroups files th inc o).countP
      (fun g => decide (g.method = DetectionMethod.exact_hash_match ∧ f ∈ g.files)) ≤ 1 := by
  rw [rawGroups_countP_split files th inc o _ (by
    intro g hgm
    simp [hgm])]
  exact exactRaw_countP_mem_le_one files f

/-- Claim C2, counterexample: scanning the empty file list does not return a
`ScanResult` at all — the handler rejects it (source lines 17-19). -/
theorem C2_empty_input_rejected :
    isOkResult (handle [] (9 / 10) true noOracle "t") = false := rfl

/-- Claim C2, amended: an empty file list is rejected with the error
`Files array is required` (surfaced as a 500 `DUPLICATE_DETECTION_FAILED`
response), for every threshold, flag, collaborator and clock. -/
theorem C2_empty_input_error (th : ℚ) (inc : Bool) (o : Oracle) (ts : String) :
    handle [] th inc o ts = Except.error "Files array is required" := rfl

/-- Claim C3, counterexample: for two one-byte files in one exact group the
reported `potential_savings_mb` is `0.00`, while the group's total size minus
its largest member's size is positive — the rounding to hundredths of a
megabyte breaks the exact equality claimed. -/
theorem C3_savings_not_exact_difference :
    ((scan [exS1, exS2] (9 / 10) true noOracle "t").duplicate_groups.map
      (fun gi => decide (gi.potential_savings_mb =
        gi.total_size_mb - maxQ (gi.files.map (fun fi => fi.size_mb))))) = [false] := by
  with_unfolding_all decide

/-- Claim C3, amended: for every returned group,
`potential_savings_mb = round2 (total_size_mb - max(rounded member sizes))`
when the group has more than one member, and the value is always ≥ 0 (in the
exact-decimal model of `toFixed`). -/
theorem C3_savings_rounded_nonneg (files : List FileDesc) (th : ℚ) (inc : Bool)
    (o : Oracle) (ts : String) (gi : GroupInfo)
    (h : gi ∈ (scan files th inc o ts).duplicate_groups) :
    0 ≤ gi.potential_savings_mb ∧
    (1 < gi.files.length → gi.potential_savings_mb =
      round2 (gi.total_size_mb - maxQ (gi.files.map (fun fi => fi.size_mb)))) := by
  rw [scan_groups] at h
  obtain ⟨g, _, rfl⟩ := List.mem_map.1 h
  exact ⟨formatGroup_savings_nonneg g, fun hlen => formatGroup_savings_eq g hlen⟩

/-- Witness for C3 at the concrete two-file input. -/
theorem C3_savings_rounded_nonneg_witness :
    0 ≤ twinGroupInfo.potential_savings_mb ∧
    (1 < twinGroupInfo.files.length → twinGroupInfo.potential_savings_mb =
      round2 (twinGroupInfo.total_size_mb - maxQ (twinGroupInfo.files.map (fun fi => fi.size_mb)))) :=
  C3_savings_rounded_nonneg [exZ1, exZ2] (9 / 10) true noOracle "t" twinGroupInfo
    (by with_unfolding_all decide)

/-- Claim C4, confirmed: a per-pair collaborator failure (network error,
non-ok response, or unparseable body — all modelled by the oracle returning
`none`) is never fatal: the scan behaves exactly as if the collaborator had
returned any below-threshold score on those pairs, the same remaining pairs
are still evaluated, and the scan returns a complete `ScanResult` covering
all input files. -/
theorem C4_collaborator_failure_nonfatal (files : List FileDesc) (th : ℚ) (inc : Bool)
    (o : Oracle) (s : ℚ) (ts : String) (hs : s < th) :
    scan files th inc (fallbackOracle o s) ts = scan files th inc o ts ∧
    scanCalls files th inc (fallbackOracle o s) = scanCalls files th inc o ∧
    (scan files th inc o ts).scan_summary.total_files_scanned = files.length :=
  ⟨scan_fallback files th inc o s hs ts, scanCalls_fallback files th inc o s hs, rfl⟩

/-- Witness for C4: the always-failing collaborator against score 0 at
threshold 0.9. -/
theorem C4_collaborator_failure_nonfatal_witness :
    scan [exA, exB, exC] (9 / 10) true (fallbackOracle noOracle 0) "t"
        = scan [exA, exB, exC] (9 / 10) true noOracle "t" ∧
    scanCalls [exA, exB, exC] (9 / 10) true (fallbackOracle noOracle 0)
        = scanCalls [exA, exB, exC] (9 / 10) true noOracle ∧
    (scan [exA, exB, exC] (9 / 10) true noOracle "t").scan_summary.total_files_scanned
        = ([exA, exB, exC] : List FileDesc).length :=
  C4_collaborator_failure_nonfatal [exA, exB, exC] (9 / 10) true noOracle 0 "t"
    (by norm_num)

/-- Claim C5, confirmed: with the key of a file being its caller hash when
truthy and otherwise `fileName_size_mimeType` (`keyOf`), every key shared by
at least two input files yields exactly one `ExactHashMatch` group, whose
members are exactly the input files with that key in encounter order; every
`ExactHashMatch` group carries the single similarity detail `1.0`. -/
theorem C5_exact_pass_unique_group (files : List FileDesc) (th : ℚ) (inc : Bool)
    (o : Oracle) (k : String) (h : 2 ≤ (files.filter (dKey k)).length) :
    (rawGroups files th inc o).countP
      (fun g => decide (g.method = DetectionMethod.exact_hash_match ∧
        g.files = files.filter (dKey k))) = 1 ∧
    ∀ g ∈ rawGroups files th inc o,
      g.method = DetectionMethod.exact_hash_match → g.scores = [1] := by
  constructor
  · rw [rawGroups_countP_split files th inc o _ (by
      intro g hgm
      simp [hgm])]
    exact exactRaw_countP_key files k h
  · exact rawGroups_exact_scores files th inc o

/-- Witness for C5 at the two files sharing hash `h`. -/
theorem C5_exact_pass_unique_group_witness :
    (rawGroups [exS1, exS2] (9 / 10) true noOracle).countP
      (fun g => decide (g.method = DetectionMethod.exact_hash_match ∧
        g.files = ([exS1, exS2] : List FileDesc).filter (dKey "h"))) = 1 ∧
    ∀ g ∈ rawGroups [exS1, exS2] (9 / 10) true noOracle,
      g.method = DetectionMethod.exact_hash_match → g.scores = [1] :=
  C5_exact_pass_unique_group [exS1, exS2] (9 / 10) true noOracle "h" (by decide)

/-- Claim C6, confirmed: when `includeSimilar` is false every returned group
is an `ExactHashMatch` group, whatever the collaborator would have scored. -/
theorem C6_no_similarity_groups_when_disabled (files : List FileDesc) (th : ℚ)
    (o : Oracle) (ts : String) (gi : GroupInfo)
    (h : gi ∈ (scan files th false o ts).duplicate_groups) :
    gi.detection_method = DetectionMethod.exact_hash_match := by
  rw [scan_groups] at h
  obtain ⟨g, hg, rfl⟩ := List.mem_map.1 h
  rw [formatGroup_method]
  rcases mem_rawGroups files th false o g hg with ⟨sg, _, hinc, _⟩ | hex
  · exact Bool.noConfusion hinc
  · exact (mem_exactRaw files g hex).1

/-- Witness for C6 at the concrete two-file input with similarity disabled. -/
theorem C6_no_similarity_groups_when_disabled_witness :
    twinGroupInfo.detection_method = DetectionMethod.exact_hash_match :=
  C6_no_similarity_groups_when_disabled [exZ1, exZ2] (9 / 10) noOracle "t" twinGroupInfo
    (by with_unfolding_all decide)

/-- Claim C7, counterexample: a run with an authorization header performs a
user-lookup request and then stores the scan result — I/O beyond the
collaborator similarity calls, refuting "no I/O other than the optional
per-pair collaborator similarity calls". -/
theorem C7_noncollaborator_io :
    handleEffects [exS1] (9 / 10) true noOracle (some "tok") true
      = [Effect.userLookup, Effect.storeResult] := by
  with_unfolding_all decide

/-- Claim C7, amended: the handler never mutates its inputs (the grouping
computation is a pure function of them), and its I/O beyond the per-pair
collaborator calls is exactly one user lookup when an authorization header is
present, followed by one result store when that lookup succeeds. -/
theorem C7_effects_shape (files : List FileDesc) (th : ℚ) (inc : Bool) (o : Oracle)
    (ah : Option String) (uok : Bool) :
    (handleEffects files th inc o ah uok).filter (fun e => !(isSimilarityCall e)) =
      if files.isEmpty then []
      else (if ah.isSome then [Effect.userLookup] else []) ++
        (if ah.isSome && uok then [Effect.storeResult] else []) := by
  unfold handleEffects
  by_cases he : files.isEmpty
  · simp [he]
  · rw [if_neg he, if_neg he, List.filter_append, List.filter_append]
    have h1 : ((scanCalls files th inc o).map
        (fun p => Effect.similarityCall p.1 p.2)).filter (fun e => !(isSimilarityCall e))
        = [] := by
      rw [List.filter_eq_nil_iff]
      intro e hee
      obtain ⟨p, _, rfl⟩ := List.mem_map.1 hee
      simp [isSimilarityCall]
    rw [h1]
    cases ah with
    | none => simp
    | some t => cases uok <;> simp [isSimilarityCall]

/-- Claim C8, counterexample: two runs on identical input with the identical
deterministic collaborator but at different clock instants return different
`ScanResult`s — `scan_summary.timestamp` records the clock. -/
theorem C8_timestamp_differs :
    scan [exS1, exS2] (9 / 10) true noOracle "t1"
      ≠ scan [exS1, exS2] (9 / 10) true noOracle "t2" := by
  with_unfolding_all decide

/-- Claim C8, amended: apart from `scan_summary.timestamp`, the scan is a
deterministic function of the input, threshold, flag and collaborator: two
runs at any two clock instants agree on every group (contents and order) and
every other summary field. -/
theorem C8_deterministic_modulo_timestamp (files : List FileDesc) (th : ℚ) (inc : Bool)
    (o : Oracle) (t1 t2 : String) :
    stripTimestamp (scan files th inc o t1) = stripTimestamp (scan files th inc o t2) := rfl

/-- Claim C9, confirmed: every returned group has at least two member files;
singleton groups are never emitted by either pass. -/
theorem C9_groups_have_two_members (files : List FileDesc) (th : ℚ) (inc : Bool)
    (o : Oracle) (ts : String) (gi : GroupInfo)
    (h : gi ∈ (scan files th inc o ts).duplicate_groups) : 2 ≤ gi.files.length := by
  rw [scan_groups] at h
  obtain ⟨g, hg, rfl⟩ := List.mem_map.1 h
  rw [formatGroup_len]
  exact rawGroups_two_le files th inc o g hg

/-- Witness for C9 at the concrete two-file input. -/
theorem C9_groups_have_two_members_witness : 2 ≤ twinGroupInfo.files.length :=
  C9_groups_have_two_members [exZ1, exZ2] (9 / 10) true noOracle "t" twinGroupInfo
    (by with_unfolding_all decide)

/-- Claim C10, counterexample: two distinct descriptors that share the
fileName `a` (different sizes, so different keys) are scored 0.95 and become
the two creation members of one `AiContentSimilarity` group — both of them
appear, refuting "at most one of them can ever appear". -/
theorem C10_same_name_pair_grouped :
    ((rawGroups [exN1, exN2] (9 / 10) true oracleHi).filter
      (fun g => decide (g.method = DetectionMethod.ai_content_similarity))).countP
      (fun g => decide (exN1 ∈ g.files ∧ exN2 ∈ g.files)) = 1 ∧
    exN1.fileName = exN2.fileName ∧ exN1 ≠ exN2 := by
  with_unfolding_all decide

/-- Claim C10, amended: candidate pairs are deduplicated by the ordered
`fileName_fileName` key, so the collaborator is called at most once per key;
and a file is appended to an *existing* similarity group only if no member
shares its fileName — but a newly created group's two initial members may
share a name, so in every similarity group only the first two members can
carry the same fileName (all later members' names are distinct from every
other member's). -/
theorem C10_similarity_name_discipline (files : List FileDesc) (th : ℚ) (inc : Bool)
    (o : Oracle) (g : SimGroup) (hg : g ∈ simGroupsOf files th o) :
    ((scanCalls files th inc o).map fun p => pairKey p.1 p.2).Nodup ∧
    ∃ n1 n2 ns, namesOf g = n1 :: n2 :: ns ∧ (n2 :: ns).Nodup ∧ n1 ∉ ns :=
  ⟨scanCalls_keys_nodup files th inc o, simGroupsOf_inv files th o g hg⟩

/-- Witness for C10 at the same-named pair input. -/
theorem C10_similarity_name_discipline_witness :
    ((scanCalls [exN1, exN2] (9 / 10) true oracleHi).map fun p => pairKey p.1 p.2).Nodup ∧
    ∃ n1 n2 ns, namesOf c10g = n1 :: n2 :: ns ∧ (n2 :: ns).Nodup ∧ n1 ∉ ns :=
  C10_similarity_name_discipline [exN1, exN2] (9 / 10) true oracleHi c10g
    (by with_unfolding_all decide)
